import Mathlib

/-!
Shallow embedding of the wave-simulation engine (two JavaScript variants:
the richer colormap/debug-timeline variant and the simpler two-color cover
variant), together with theorems settling the specification claims.

Conventions of the embedding:
* JavaScript numbers are modelled as real numbers (`ℝ`).
* The per-frame lifecycle functions are modelled as pure functions from
  (canvas, configuration, time, wave list) to the filtered wave list,
  mirroring the source line by line.
* Fallible array indexing (empty colormap) is modelled with `Option`.
-/

namespace WaveSim

open Classical

/-- Canvas dimensions (`canvas.width`, `canvas.height`). -/
structure Canvas where
  width : ℝ
  height : ℝ

/-- The configuration fields read by the modelled code paths
(`CONFIG.waveDynamics`, `CONFIG.interaction`, `CONFIG.disintegration`). -/
structure Config where
  carrierFrequency : ℝ
  gaussianWidth : ℝ
  waveSpeed : ℝ
  waveLifetimeSeconds : ℝ
  waveRemovalEdgeFactor : ℝ
  maxWaves : ℕ
  disintegrationEnabled : Bool
  startAgeSeconds : ℝ
  transitionDurationSeconds : ℝ
  noisePersistenceDurationSeconds : ℝ

/-- A wave record of the richer variant.  The source stores only the base
fields in `allWavesEver`; the derived fields are overwritten on every call
of `updateAndFilterWaves` (the JavaScript spread `{...waveData}` copies
whatever is present and the function then assigns all derived fields). -/
structure WaveState where
  x : ℝ
  y : ℝ
  creationTime : ℝ
  fc : ℝ
  sig : ℝ
  age : ℝ
  currentTau : ℝ
  isDisintegrating : Bool
  timeSinceDisintegrationTrigger : ℝ
  disintegrationTransitionProgress : ℝ

/-- The identity-defining fields of a wave (those written once by `addWave`
and never mutated). -/
structure WaveBase where
  x : ℝ
  y : ℝ
  creationTime : ℝ
  fc : ℝ
  sig : ℝ

/-- Projection of a wave record onto its identity-defining fields. -/
def WaveState.base (w : WaveState) : WaveBase :=
  ⟨w.x, w.y, w.creationTime, w.fc, w.sig⟩

/-- `getDistance(x1, y1, x2, y2)`: Euclidean distance. -/
noncomputable def getDistance (x1 y1 x2 y2 : ℝ) : ℝ :=
  Real.sqrt ((x1 - x2) * (x1 - x2) + (y1 - y2) * (y1 - y2))

/-- The `maxDistToCorner` computation of the removal logic: fold of
`Math.max` over the four canvas corners, starting from 0. -/
noncomputable def maxDistToCorner (canvas : Canvas) (x y : ℝ) : ℝ :=
  [((0 : ℝ), (0 : ℝ)), (canvas.width, 0), (0, canvas.height),
      (canvas.width, canvas.height)].foldl
    (fun m corner => max m (getDistance x y corner.1 corner.2)) 0

/-- `const age = globalTime - waveData.creationTime`. -/
def waveAge (globalTime : ℝ) (w : WaveState) : ℝ :=
  globalTime - w.creationTime

/-- Gaussian-modulated sinusoidal pulse function (`pulse(d, fc, tau, sig)`),
with the `sig === 0` guard of the source. -/
noncomputable def pulse (d fc tau sig : ℝ) : ℝ :=
  if sig = 0 then 0
  else
    Real.exp (-0.5 * ((d - tau) / sig) ^ 2) *
      Real.sin (2 * Real.pi * fc * (d - tau))

/-- The Gaussian envelope exactly as the specification words it: centred at
`tau` with standard deviation `sig`. -/
noncomputable def specGaussianEnvelope (d tau sig : ℝ) : ℝ :=
  Real.exp (-(1 / 2) * ((d - tau) / sig) ^ 2)

/-- The sinusoid exactly as the specification words it: frequency `fc`,
phase-referenced to `d - tau`. -/
noncomputable def specSinusoid (d fc tau : ℝ) : ℝ :=
  Real.sin (2 * Real.pi * fc * (d - tau))

/-- Per-wave body of `updateAndFilterWaves` in the richer variant:
returns the recomputed per-frame state when the wave is kept for rendering,
`none` when it is skipped or filtered out. -/
noncomputable def processWave (canvas : Canvas) (cfg : Config) (globalTime : ℝ)
    (waveData : WaveState) : Option WaveState :=
  let age := waveAge globalTime waveData
  if age < 0 then none
  else
    let s0 : WaveState :=
      { waveData with
        age := age
        currentTau := age * cfg.waveSpeed
        isDisintegrating := false
        timeSinceDisintegrationTrigger := 0
        disintegrationTransitionProgress := 0 }
    let s : WaveState :=
      if cfg.disintegrationEnabled = true ∧ age > cfg.startAgeSeconds then
        let disintegrationEffectActualStartTime :=
          waveData.creationTime + cfg.startAgeSeconds
        let tsdt := globalTime - disintegrationEffectActualStartTime
        if tsdt ≥ 0 then
          { s0 with
            isDisintegrating := true
            timeSinceDisintegrationTrigger := tsdt
            disintegrationTransitionProgress :=
              min 1 (tsdt / cfg.transitionDurationSeconds) }
        else
          { s0 with
            isDisintegrating := false
            timeSinceDisintegrationTrigger := tsdt }
      else s0
    let keepThisWave : Prop :=
      if s.isDisintegrating = true then
        ¬(s.timeSinceDisintegrationTrigger ≥ cfg.transitionDurationSeconds)
      else
        ¬(s.currentTau - waveData.sig * cfg.waveRemovalEdgeFactor >
            maxDistToCorner canvas waveData.x waveData.y) ∧
          ¬(age ≥ cfg.waveLifetimeSeconds)
    if keepThisWave then some s else none

/-- `updateAndFilterWaves` of the richer variant: rebuild the active list by
filtering the master list `allWavesEver` at the current time. -/
noncomputable def updateAndFilterWaves (canvas : Canvas) (cfg : Config)
    (globalTime : ℝ) (allWavesEver : List WaveState) : List WaveState :=
  allWavesEver.filterMap (processWave canvas cfg globalTime)

/-- A wave record of the two-color cover variant, which stores the
disintegration transition flags on the wave itself. -/
structure CoverWave where
  x : ℝ
  y : ℝ
  creationTime : ℝ
  fc : ℝ
  sig : ℝ
  isDisintegrating : Bool
  disintegrationEffectStartTime : ℝ
  tauAtDisintegration : ℝ

/-- `addWave(x, y, startTime)` of the two-color cover variant: evict the
front of the list when at capacity (`waves.shift()`), then append the new
wave record. -/
noncomputable def addWaveCover (cfg : Config) (waves : List CoverWave) (x y startTime : ℝ) :
    List CoverWave :=
  (if waves.length ≥ cfg.maxWaves then waves.tail else waves) ++
    [{ x := x
       y := y
       creationTime := startTime
       fc := cfg.carrierFrequency / 100
       sig := cfg.gaussianWidth
       isDisintegrating := false
       disintegrationEffectStartTime := 0
       tauAtDisintegration := 0 }]

/-- Per-wave body of the cover variant's `updateWaves` filter: first the
in-place marking of a newly disintegrating wave (caching the current frame
time as `disintegrationEffectStartTime`), then the keep/remove decision. -/
noncomputable def coverFilterWave (canvas : Canvas) (cfg : Config)
    (globalTime : ℝ) (wave : CoverWave) : Option CoverWave :=
  let age := globalTime - wave.creationTime
  let currentTau := age * cfg.waveSpeed
  let w :=
    if cfg.disintegrationEnabled = true ∧ wave.isDisintegrating = false ∧
        age > cfg.startAgeSeconds then
      { wave with
        isDisintegrating := true
        disintegrationEffectStartTime := globalTime
        tauAtDisintegration := currentTau }
    else wave
  if w.isDisintegrating = true then
    let timeSinceDisintegrationStart := globalTime - w.disintegrationEffectStartTime
    let totalDisintegrationEffectDuration :=
      cfg.transitionDurationSeconds + cfg.noisePersistenceDurationSeconds
    if timeSinceDisintegrationStart < totalDisintegrationEffectDuration then
      some w
    else none
  else
    if currentTau - wave.sig * cfg.waveRemovalEdgeFactor >
        maxDistToCorner canvas wave.x wave.y then
      none
    else if age < cfg.waveLifetimeSeconds then some w else none

/-- `updateWaves(deltaTime)` of the cover variant: advance `globalTime` by
`deltaTime`, then filter the wave list in place; returns the new list and
the new global time. -/
noncomputable def updateWavesCover (canvas : Canvas) (cfg : Config)
    (waves : List CoverWave) (globalTime deltaTime : ℝ) :
    List CoverWave × ℝ :=
  let t := globalTime + deltaTime
  (waves.filterMap (coverFilterWave canvas cfg t), t)

/-- A colormap stop: a position in `[0,1]` with an RGB triple. -/
structure ColorStop where
  pos : ℝ
  color : ℤ × ℤ × ℤ

/-- The bracketing-pair loop of `getColorFromColormap`: walk the adjacent
pairs `(stop1, stop2)` in order; on the first pair with
`normalizedPos >= stop1.pos && normalizedPos <= stop2.pos`, interpolate
(`Math.round` per channel), guarding the degenerate `stop1.pos === stop2.pos`
case, which in floating point makes the fraction `t` NaN or infinite and in
the source returns `stop1.color`.  Returns `none` when the loop falls
through without a bracketing pair. -/
noncomputable def interpLoop (normalizedPos : ℝ) : List ColorStop → Option (ℤ × ℤ × ℤ)
  | stop1 :: stop2 :: rest =>
    if normalizedPos ≥ stop1.pos ∧ normalizedPos ≤ stop2.pos then
      let t := (normalizedPos - stop1.pos) / (stop2.pos - stop1.pos)
      if stop1.pos = stop2.pos then some stop1.color
      else
        some (round ((stop1.color.1 : ℝ) * (1 - t) + (stop2.color.1 : ℝ) * t),
              round ((stop1.color.2.1 : ℝ) * (1 - t) + (stop2.color.2.1 : ℝ) * t),
              round ((stop1.color.2.2 : ℝ) * (1 - t) + (stop2.color.2.2 : ℝ) * t))
    else interpLoop normalizedPos (stop2 :: rest)
  | _ => none

/-- `getColorFromColormap(value, colormap)`: normalize `value` from
`[-1,1]` to a position in `[0,1]`, clamp at the boundary stops, otherwise
interpolate between the bracketing pair, with the source's final
`return colormap[colormap.length - 1].color` fall-through.  Indexing an
empty colormap throws in the source, modelled as `none`. -/
noncomputable def getColorFromColormap (value : ℝ) :
    List ColorStop → Option (ℤ × ℤ × ℤ)
  | [] => none
  | c0 :: cs =>
    let normalizedPos := (value + 1) / 2
    let lastStop := cs.getLastD c0
    if normalizedPos ≤ c0.pos then some c0.color
    else if normalizedPos ≥ lastStop.pos then some lastStop.color
    else
      match interpLoop normalizedPos (c0 :: cs) with
      | some c => some c
      | none => some lastStop.color

/-! ### Concrete sample data (used by witnesses and counterexamples) -/

/-- The default configuration shipped in the source (`CONFIG`), restricted
to the modelled fields.  Both variants ship the same values for these. -/
noncomputable def defaultConfig : Config :=
  { carrierFrequency := 5
    gaussianWidth := 20
    waveSpeed := 50
    waveLifetimeSeconds := 25
    waveRemovalEdgeFactor := 4
    maxWaves := 10
    disintegrationEnabled := true
    startAgeSeconds := 8
    transitionDurationSeconds := 5
    noisePersistenceDurationSeconds := 3 }

/-- `defaultConfig` with disintegration disabled and a 15 second lifetime,
matching the spec's lifetime-removal scenario. -/
noncomputable def lifetimeConfig : Config :=
  { defaultConfig with
    disintegrationEnabled := false
    waveLifetimeSeconds := 15 }

/-- A small concrete canvas. -/
noncomputable def sampleCanvas : Canvas := ⟨30, 40⟩

/-- A concrete wave created at time 2 at the origin. -/
noncomputable def sampleWave : WaveState :=
  { x := 0, y := 0, creationTime := 2, fc := 1 / 20, sig := 20
    age := 0, currentTau := 0, isDisintegrating := false
    timeSinceDisintegrationTrigger := 0, disintegrationTransitionProgress := 0 }

/-- A concrete wave created at time 0 at the origin. -/
noncomputable def waveAtZero : WaveState :=
  { x := 0, y := 0, creationTime := 0, fc := 1 / 20, sig := 20
    age := 0, currentTau := 0, isDisintegrating := false
    timeSinceDisintegrationTrigger := 0, disintegrationTransitionProgress := 0 }

/-- A concrete cover-variant wave created at time 0 at the origin, with
the stored transition flags in their initial state. -/
noncomputable def coverWaveAtZero : CoverWave :=
  { x := 0, y := 0, creationTime := 0, fc := 1 / 20, sig := 20
    isDisintegrating := false, disintegrationEffectStartTime := 0
    tauAtDisintegration := 0 }

/-- A concrete cover-variant wave created at time 5 at the origin (not yet
started at any earlier evaluation time). -/
noncomputable def coverWaveLate : CoverWave :=
  { x := 0, y := 0, creationTime := 5, fc := 1 / 20, sig := 20
    isDisintegrating := false, disintegrationEffectStartTime := 0
    tauAtDisintegration := 0 }

/-- The default colormap of the richer variant's `CONFIG.waveVisuals`. -/
noncomputable def defaultColormap : List ColorStop :=
  [⟨0, (0, 0, 255)⟩, ⟨1 / 4, (128, 0, 128)⟩, ⟨1 / 2, (0, 0, 0)⟩,
   ⟨3 / 4, (255, 128, 0)⟩, ⟨1, (255, 0, 0)⟩]

/-! ### Claim theorems -/

/-- C4: for every `sig ≠ 0`, `pulse(distance, fc, tau, sig)` is exactly the
Gaussian envelope centred at `tau` with standard deviation `sig` multiplied
by a sinusoid of frequency `fc` phase-referenced to `distance − tau`; the
function is pure and deterministic. -/
theorem pulse_eq_spec_formula (d fc tau sig : ℝ) (h : sig ≠ 0) :
    pulse d fc tau sig = specGaussianEnvelope d tau sig * specSinusoid d fc tau := by
  simp only [pulse, specGaussianEnvelope, specSinusoid, if_neg h]
  norm_num

/-- Witness for `pulse_eq_spec_formula` at the default `sig = 20`. -/
theorem pulse_eq_spec_formula_witness :
    (20 : ℝ) ≠ 0 ∧
      pulse 3 2 1 20 = specGaussianEnvelope 3 1 20 * specSinusoid 3 2 1 :=
  ⟨by norm_num, pulse_eq_spec_formula 3 2 1 20 (by norm_num)⟩

/-- C5: `pulse(d, fc, tau, 0) = 0` exactly for all `d`, `fc`, `tau`: the
`sig === 0` guard fires before any division, so a degenerate width
contributes `0` rather than a `NaN`/infinite quotient, including at
`d = tau`. -/
theorem pulse_sig_zero (d fc tau : ℝ) : pulse d fc tau 0 = 0 := by
  simp [pulse]

/-- The fold of `Math.max` over the corner distances starts at 0, so the
result is never negative. -/
theorem maxDistToCorner_nonneg (canvas : Canvas) (x y : ℝ) :
    0 ≤ maxDistToCorner canvas x y := by
  simp only [maxDistToCorner, List.foldl_cons, List.foldl_nil]
  simp [le_max_iff]

/-- The cover variant's `updateWaves` filter has no age-based skip: a wave
whose age is still negative (evaluation time before its creation time, so
it is not marked disintegrating and the ring has not expanded) passes the
filter unchanged whenever the configuration values are nonnegative. -/
theorem coverFilterWave_notStarted (canvas : Canvas) (cfg : Config) (t : ℝ)
    (wc : CoverWave) (ht : t < wc.creationTime)
    (hflag : wc.isDisintegrating = false)
    (hstart : 0 ≤ cfg.startAgeSeconds) (hspeed : 0 ≤ cfg.waveSpeed)
    (hsig : 0 ≤ wc.sig) (hedge : 0 ≤ cfg.waveRemovalEdgeFactor)
    (hlife : 0 ≤ cfg.waveLifetimeSeconds) :
    coverFilterWave canvas cfg t wc = some wc := by
  have hage : t - wc.creationTime < 0 := by linarith
  have hcond1 : ¬(cfg.disintegrationEnabled = true ∧
      wc.isDisintegrating = false ∧
      t - wc.creationTime > cfg.startAgeSeconds) := by
    intro h
    linarith [h.2.2]
  have hflagt : ¬(wc.isDisintegrating = true) := by simp [hflag]
  have hinner : ¬((t - wc.creationTime) * cfg.waveSpeed -
      wc.sig * cfg.waveRemovalEdgeFactor >
        maxDistToCorner canvas wc.x wc.y) := by
    push_neg
    have h1 : (t - wc.creationTime) * cfg.waveSpeed ≤ 0 := by
      nlinarith [mul_nonneg (neg_nonneg.mpr (le_of_lt hage)) hspeed]
    have h2 : 0 ≤ wc.sig * cfg.waveRemovalEdgeFactor := mul_nonneg hsig hedge
    have h3 : 0 ≤ maxDistToCorner canvas wc.x wc.y :=
      maxDistToCorner_nonneg canvas wc.x wc.y
    linarith
  have hlt : t - wc.creationTime < cfg.waveLifetimeSeconds := by linarith
  simp only [coverFilterWave]
  rw [if_neg hcond1, if_neg hflagt, if_neg hinner, if_pos hlt]

/-- C3 counterexample: the two-color variant's per-frame recomputation
(`updateWaves`, a cited source of the claim) has no `age < 0` skip.  The
wave created at time 5, filtered at global time 1 (age `-4`), is not
excluded: it stays in the rendered wave list, against the claim that every
negative-age wave is excluded from the active set. -/
theorem cover_negative_age_counterexample :
    (1 : ℝ) - coverWaveLate.creationTime < 0 ∧
      updateWavesCover sampleCanvas defaultConfig [coverWaveLate] 0 1 =
        ([coverWaveLate], 1) := by
  have hf : coverFilterWave sampleCanvas defaultConfig 1 coverWaveLate =
      some coverWaveLate :=
    coverFilterWave_notStarted sampleCanvas defaultConfig 1 coverWaveLate
      (by norm_num [coverWaveLate]) rfl (by norm_num [defaultConfig])
      (by norm_num [defaultConfig]) (by norm_num [coverWaveLate])
      (by norm_num [defaultConfig]) (by norm_num [defaultConfig])
  refine ⟨by norm_num [coverWaveLate], ?_⟩
  simp only [updateWavesCover]
  norm_num [List.filterMap_cons, hf]

/-- C3 (amended): in the richer variant, for every evaluation time strictly
before a wave's creation time the wave's age is negative and the wave is
excluded from the recomputed active set, and at exactly the creation time
the age is `0` and the age-based skip does not apply; the two-color
variant's filter has no age-based skip, so (with nonnegative configuration
values) a not-yet-started wave remains in its rendered wave list. -/
theorem wave_age_exclusion_amended (canvas : Canvas) (cfg : Config)
    (w : WaveState) (wc : CoverWave) :
    (∀ t : ℝ, t < w.creationTime →
      waveAge t w < 0 ∧ processWave canvas cfg t w = none ∧
        ∀ ws : List WaveState,
          updateAndFilterWaves canvas cfg t (w :: ws) =
            updateAndFilterWaves canvas cfg t ws) ∧
    (waveAge w.creationTime w = 0 ∧ ¬ waveAge w.creationTime w < 0) ∧
    (∀ t : ℝ, t < wc.creationTime → wc.isDisintegrating = false →
      0 ≤ cfg.startAgeSeconds → 0 ≤ cfg.waveSpeed → 0 ≤ wc.sig →
      0 ≤ cfg.waveRemovalEdgeFactor → 0 ≤ cfg.waveLifetimeSeconds →
      coverFilterWave canvas cfg t wc = some wc) := by
  refine ⟨fun t ht => ?_, ⟨by simp [waveAge], by simp [waveAge]⟩,
    fun t ht hflag h1 h2 h3 h4 h5 =>
      coverFilterWave_notStarted canvas cfg t wc ht hflag h1 h2 h3 h4 h5⟩
  have hage : waveAge t w < 0 := by
    simp only [waveAge]
    linarith
  have hnone : processWave canvas cfg t w = none := by
    simp only [processWave]
    rw [if_pos hage]
  exact ⟨hage, hnone, fun ws => by
    simp [updateAndFilterWaves, List.filterMap_cons, hnone]⟩

/-- Witness for `wave_age_exclusion_amended`: the richer variant drops the
wave created at time 2 when filtering at time 1 (age `-1`), while the
two-color variant keeps the wave created at time 5 when filtering at
time 1 (age `-4`). -/
theorem wave_age_exclusion_amended_witness :
    (1 : ℝ) < sampleWave.creationTime ∧ waveAge 1 sampleWave < 0 ∧
      processWave sampleCanvas defaultConfig 1 sampleWave = none ∧
      updateAndFilterWaves sampleCanvas defaultConfig 1 [sampleWave] =
        updateAndFilterWaves sampleCanvas defaultConfig 1 [] ∧
      waveAge sampleWave.creationTime sampleWave = 0 ∧
      (1 : ℝ) < coverWaveLate.creationTime ∧
      coverFilterWave sampleCanvas defaultConfig 1 coverWaveLate =
        some coverWaveLate := by
  have ht : (1 : ℝ) < sampleWave.creationTime := by norm_num [sampleWave]
  have htc : (1 : ℝ) < coverWaveLate.creationTime := by
    norm_num [coverWaveLate]
  obtain ⟨hall, hat, hcover⟩ :=
    wave_age_exclusion_amended sampleCanvas defaultConfig sampleWave
      coverWaveLate
  obtain ⟨h1, h2, h3⟩ := hall 1 ht
  exact ⟨ht, h1, h2, h3 [], hat.1, htc,
    hcover 1 htc rfl (by norm_num [defaultConfig])
      (by norm_num [defaultConfig]) (by norm_num [coverWaveLate])
      (by norm_num [defaultConfig]) (by norm_num [defaultConfig])⟩

/-- C9: a wave that is not disintegrating is removed from the active set
once its age reaches `waveLifetimeSeconds`, regardless of spatial extent
(the corner-distance test is irrelevant to this removal path). -/
theorem nonDisintegrating_lifetime_removal (canvas : Canvas) (cfg : Config)
    (t : ℝ) (w : WaveState)
    (hnd : ¬(cfg.disintegrationEnabled = true ∧ waveAge t w > cfg.startAgeSeconds))
    (hage : waveAge t w ≥ cfg.waveLifetimeSeconds) :
    processWave canvas cfg t w = none ∧
      ∀ ws : List WaveState,
        updateAndFilterWaves canvas cfg t (w :: ws) =
          updateAndFilterWaves canvas cfg t ws := by
  have hnone : processWave canvas cfg t w = none := by
    by_cases hneg : waveAge t w < 0
    · simp only [processWave]
      rw [if_pos hneg]
    · simp only [processWave]
      rw [if_neg hneg, if_neg hnd, if_neg]
      simp only [show (({ w with
          age := waveAge t w
          currentTau := waveAge t w * cfg.waveSpeed
          isDisintegrating := false
          timeSinceDisintegrationTrigger := 0
          disintegrationTransitionProgress := 0 } : WaveState).isDisintegrating = true) =
            False by simp, if_false]
      exact fun hk => hk.2 hage
  exact ⟨hnone, fun ws => by
    simp [updateAndFilterWaves, List.filterMap_cons, hnone]⟩

/-- Witness for `nonDisintegrating_lifetime_removal`: with the 15 second
lifetime configuration (disintegration disabled), the wave created at time
0 is absent from the active set at time 15.001. -/
theorem nonDisintegrating_lifetime_removal_witness :
    ¬(lifetimeConfig.disintegrationEnabled = true ∧
        waveAge (15001 / 1000) waveAtZero > lifetimeConfig.startAgeSeconds) ∧
      waveAge (15001 / 1000) waveAtZero ≥ lifetimeConfig.waveLifetimeSeconds ∧
      processWave sampleCanvas lifetimeConfig (15001 / 1000) waveAtZero = none ∧
      updateAndFilterWaves sampleCanvas lifetimeConfig (15001 / 1000) [waveAtZero] =
        updateAndFilterWaves sampleCanvas lifetimeConfig (15001 / 1000) [] := by
  have hnd : ¬(lifetimeConfig.disintegrationEnabled = true ∧
      waveAge (15001 / 1000) waveAtZero > lifetimeConfig.startAgeSeconds) := by
    simp [lifetimeConfig, defaultConfig]
  have hage : waveAge (15001 / 1000) waveAtZero ≥ lifetimeConfig.waveLifetimeSeconds := by
    norm_num [waveAge, waveAtZero, lifetimeConfig, defaultConfig]
  obtain ⟨h1, h2⟩ :=
    nonDisintegrating_lifetime_removal sampleCanvas lifetimeConfig
      (15001 / 1000) waveAtZero hnd hage
  exact ⟨hnd, hage, h1, h2 []⟩

/-- C10: `addWave` of the two-color variant preserves the capacity bound on
the wave list: when the list is at or above `maxWaves` the front (oldest)
wave is shifted off before the new wave is appended, so a list of length at
most `maxWaves ≥ 1` stays within `maxWaves`. -/
theorem addWaveCover_capacity (cfg : Config) (waves : List CoverWave)
    (x y startTime : ℝ) (hmax : 1 ≤ cfg.maxWaves)
    (hlen : waves.length ≤ cfg.maxWaves) :
    (addWaveCover cfg waves x y startTime).length ≤ cfg.maxWaves := by
  simp only [addWaveCover, List.length_append, List.length_cons,
    List.length_nil]
  split
  · simp only [List.length_tail]
    omega
  · omega

/-- Witness for `addWaveCover_capacity` at a list already at capacity. -/
theorem addWaveCover_capacity_witness :
    1 ≤ defaultConfig.maxWaves ∧
      (List.replicate 10 coverWaveAtZero).length ≤
        defaultConfig.maxWaves ∧
      (addWaveCover defaultConfig
          (List.replicate 10 coverWaveAtZero)
          1 2 0).length ≤ defaultConfig.maxWaves := by
  have hmax : 1 ≤ defaultConfig.maxWaves := by norm_num [defaultConfig]
  have hlen : (List.replicate 10 coverWaveAtZero).length ≤
      defaultConfig.maxWaves := by simp [defaultConfig]
  exact ⟨hmax, hlen,
    addWaveCover_capacity defaultConfig _ 1 2 0 hmax hlen⟩

/-- C1 counterexample: under the default configuration (start age 8s,
transition 5s, noise persistence 3s), the wave created at time 0 is
disintegrating at time 13.5 with `timeSinceDisintegrationTrigger = 5.5`,
strictly inside the claimed total effect window `5 + 3 = 8`, yet the richer
variant's `updateAndFilterWaves` has already removed it: that variant drops
a disintegrating wave as soon as the transition window alone elapses. -/
theorem richer_persistence_counterexample :
    defaultConfig.disintegrationEnabled = true ∧
      waveAge (27 / 2) waveAtZero > defaultConfig.startAgeSeconds ∧
      (27 / 2 : ℝ) - (waveAtZero.creationTime + defaultConfig.startAgeSeconds) <
        defaultConfig.transitionDurationSeconds +
          defaultConfig.noisePersistenceDurationSeconds ∧
      updateAndFilterWaves sampleCanvas defaultConfig (27 / 2) [waveAtZero] = [] := by
  refine ⟨rfl, by norm_num [waveAge, waveAtZero, defaultConfig],
    by norm_num [waveAtZero, defaultConfig], ?_⟩
  have hnone : processWave sampleCanvas defaultConfig (27 / 2) waveAtZero = none := by
    have hage : ¬ waveAge (27 / 2) waveAtZero < 0 := by
      norm_num [waveAge, waveAtZero]
    have hcond : defaultConfig.disintegrationEnabled = true ∧
        waveAge (27 / 2) waveAtZero > defaultConfig.startAgeSeconds := by
      exact ⟨rfl, by norm_num [waveAge, waveAtZero, defaultConfig]⟩
    have htsdt : (27 / 2 : ℝ) -
        (waveAtZero.creationTime + defaultConfig.startAgeSeconds) ≥ 0 := by
      norm_num [waveAtZero, defaultConfig]
    simp only [processWave]
    rw [if_neg hage, if_pos hcond, if_pos htsdt, if_neg]
    intro hk
    rw [if_pos rfl] at hk
    exact hk (by norm_num [waveAtZero, defaultConfig])
  simp [updateAndFilterWaves, List.filterMap_cons, hnone]

/-- C1 (amended): in the richer variant a disintegrating wave
(disintegration enabled, nonnegative start age exceeded) remains in the
active set exactly while `timeSinceDisintegrationTrigger <
transitionDurationSeconds`, and is removed as soon as that transition
window elapses; the noise-persistence window does not extend retention in
this variant. -/
theorem richer_disintegrating_keep_iff (canvas : Canvas) (cfg : Config)
    (t : ℝ) (w : WaveState) (hen : cfg.disintegrationEnabled = true)
    (hstart : 0 ≤ cfg.startAgeSeconds)
    (hdis : waveAge t w > cfg.startAgeSeconds) :
    (processWave canvas cfg t w).isSome = true ↔
      t - (w.creationTime + cfg.startAgeSeconds) <
        cfg.transitionDurationSeconds := by
  have hage : ¬ waveAge t w < 0 := by
    simp only [waveAge] at hdis ⊢
    push_neg
    linarith
  have hcond : cfg.disintegrationEnabled = true ∧
      waveAge t w > cfg.startAgeSeconds := ⟨hen, hdis⟩
  have htsdt : t - (w.creationTime + cfg.startAgeSeconds) ≥ 0 := by
    simp only [waveAge] at hdis
    linarith
  simp only [processWave]
  rw [if_neg hage, if_pos hcond, if_pos htsdt]
  by_cases hlt : t - (w.creationTime + cfg.startAgeSeconds) <
      cfg.transitionDurationSeconds
  · rw [if_pos]
    · simp [hlt]
    · rw [if_pos rfl]
      push_neg
      exact hlt
  · rw [if_neg]
    · simp [hlt]
    · rw [if_pos rfl]
      push_neg
      push_neg at hlt
      exact hlt

/-- Witness for `richer_disintegrating_keep_iff`: at time 10 the wave
created at time 0 is 2 seconds into its 5 second transition and is kept. -/
theorem richer_disintegrating_keep_iff_witness :
    defaultConfig.disintegrationEnabled = true ∧
      (0 : ℝ) ≤ defaultConfig.startAgeSeconds ∧
      waveAge 10 waveAtZero > defaultConfig.startAgeSeconds ∧
      ((processWave sampleCanvas defaultConfig 10 waveAtZero).isSome = true ↔
        (10 : ℝ) - (waveAtZero.creationTime + defaultConfig.startAgeSeconds) <
          defaultConfig.transitionDurationSeconds) :=
  ⟨rfl, by norm_num [defaultConfig],
    by norm_num [waveAge, waveAtZero, defaultConfig],
    richer_disintegrating_keep_iff sampleCanvas defaultConfig 10 waveAtZero rfl
      (by norm_num [defaultConfig])
      (by norm_num [waveAge, waveAtZero, defaultConfig])⟩

/-- `processWave` reads only the identity-defining fields of its input
wave: every derived field (including any cached transition flag) is
overwritten from the time value before it is consulted. -/
theorem processWave_base_congr (canvas : Canvas) (cfg : Config) (t : ℝ)
    {w₁ w₂ : WaveState} (h : w₁.base = w₂.base) :
    processWave canvas cfg t w₁ = processWave canvas cfg t w₂ := by
  obtain ⟨x₁, y₁, c₁, f₁, s₁, a₁, τ₁, d₁, ts₁, p₁⟩ := w₁
  obtain ⟨x₂, y₂, c₂, f₂, s₂, a₂, τ₂, d₂, ts₂, p₂⟩ := w₂
  simp only [WaveState.base, WaveBase.mk.injEq] at h
  obtain ⟨hx, hy, hc, hf, hs⟩ := h
  subst hx hy hc hf hs
  rfl

/-- C2 (amended): in the richer variant the active-set recomputation is a
pure function of the waves' identity-defining fields, the time value and
the configuration: any two histories that agree on those fields (whatever
stale derived or cached values they carry) yield identical active sets and
identical per-wave derived state, so repeated evaluations at the same time
agree and every derived field matches recomputation from time alone. -/
theorem updateAndFilterWaves_pure (canvas : Canvas) (cfg : Config) (t : ℝ)
    (waves₁ waves₂ : List WaveState)
    (h : waves₁.map WaveState.base = waves₂.map WaveState.base) :
    updateAndFilterWaves canvas cfg t waves₁ =
      updateAndFilterWaves canvas cfg t waves₂ := by
  induction waves₁ generalizing waves₂ with
  | nil =>
    cases waves₂ with
    | nil => rfl
    | cons b m => simp at h
  | cons a l ih =>
    cases waves₂ with
    | nil => simp at h
    | cons b m =>
      simp only [List.map_cons, List.cons.injEq] at h
      obtain ⟨hab, hlm⟩ := h
      have hstep := processWave_base_congr canvas cfg t hab
      have htail := ih m hlm
      simp only [updateAndFilterWaves, List.filterMap_cons, hstep]
      simp only [updateAndFilterWaves] at htail
      rw [htail]

/-- `waveAtZero` carrying stale derived fields: a cached
`isDisintegrating` flag, a wrong age and a wrong transition progress. -/
noncomputable def waveAtZeroStale : WaveState :=
  { x := 0, y := 0, creationTime := 0, fc := 1 / 20, sig := 20
    age := 99, currentTau := 77, isDisintegrating := true
    timeSinceDisintegrationTrigger := 55
    disintegrationTransitionProgress := 1 }

/-- Witness for `updateAndFilterWaves_pure`: the history carrying stale
derived fields produces the same active set as the clean history with the
same base fields. -/
theorem updateAndFilterWaves_pure_witness :
    [waveAtZeroStale].map WaveState.base = [waveAtZero].map WaveState.base ∧
      updateAndFilterWaves sampleCanvas defaultConfig 3 [waveAtZeroStale] =
        updateAndFilterWaves sampleCanvas defaultConfig 3 [waveAtZero] := by
  have h : [waveAtZeroStale].map WaveState.base =
      [waveAtZero].map WaveState.base := by
    simp [WaveState.base, waveAtZeroStale, waveAtZero]
  exact ⟨h, updateAndFilterWaves_pure sampleCanvas defaultConfig 3 _ _ h⟩

/-- The cover-variant wave as marked by `updateWaves` at frame time `t0`:
the cached transition flags record the frame time, not the trigger age. -/
noncomputable def coverMarked (t0 : ℝ) : CoverWave :=
  { x := 0, y := 0, creationTime := 0, fc := 1 / 20, sig := 20
    isDisintegrating := true
    disintegrationEffectStartTime := t0
    tauAtDisintegration := (t0 - 0) * 50 }

/-- Run A of the cover variant: frames at times 9 and 16.6. -/
noncomputable def coverRunA : List CoverWave × ℝ :=
  updateWavesCover sampleCanvas defaultConfig
    (updateWavesCover sampleCanvas defaultConfig [coverWaveAtZero] 0 9).1
    (updateWavesCover sampleCanvas defaultConfig [coverWaveAtZero] 0 9).2
    (38 / 5)

/-- Run B of the cover variant: frames at times 8.5 and 16.6. -/
noncomputable def coverRunB : List CoverWave × ℝ :=
  updateWavesCover sampleCanvas defaultConfig
    (updateWavesCover sampleCanvas defaultConfig [coverWaveAtZero] 0 (17 / 2)).1
    (updateWavesCover sampleCanvas defaultConfig [coverWaveAtZero] 0 (17 / 2)).2
    (81 / 10)

/-- C2 counterexample, from the two-color variant's cached transition
flags: starting from the identical wave history `[coverWaveAtZero]` and the
identical configuration, two frame schedules that both end at global time
16.6 disagree on the active set (run A keeps the wave, run B has removed
it), because `disintegrationEffectStartTime` caches the frame time at which
disintegration was first observed (9 vs 8.5) instead of the trigger time
`creationTime + startAgeSeconds = 8` that recomputation from time alone
would give.  Classification is therefore not a pure function of
(wave, currentTime, config) in this variant. -/
theorem cover_cached_flags_counterexample :
    coverRunA.2 = coverRunB.2 ∧
      coverRunA.1 = [coverMarked 9] ∧ coverRunB.1 = [] := by
  have hf1 : coverFilterWave sampleCanvas defaultConfig 9 coverWaveAtZero =
      some (coverMarked 9) := by
    norm_num [coverFilterWave, coverWaveAtZero, defaultConfig, coverMarked,
      CoverWave.mk.injEq]
  have hf2 : coverFilterWave sampleCanvas defaultConfig (83 / 5) (coverMarked 9) =
      some (coverMarked 9) := by
    norm_num [coverFilterWave, coverMarked, defaultConfig, CoverWave.mk.injEq]
  have hf3 : coverFilterWave sampleCanvas defaultConfig (17 / 2) coverWaveAtZero =
      some (coverMarked (17 / 2)) := by
    norm_num [coverFilterWave, coverWaveAtZero, defaultConfig, coverMarked,
      CoverWave.mk.injEq]
  have hf4 : coverFilterWave sampleCanvas defaultConfig (83 / 5) (coverMarked (17 / 2)) =
      none := by
    norm_num [coverFilterWave, coverMarked, defaultConfig]
  have h1 : updateWavesCover sampleCanvas defaultConfig [coverWaveAtZero] 0 9 =
      ([coverMarked 9], 9) := by
    simp only [updateWavesCover]
    norm_num [List.filterMap_cons, hf1]
  have h2 : updateWavesCover sampleCanvas defaultConfig [coverMarked 9] 9 (38 / 5) =
      ([coverMarked 9], 83 / 5) := by
    simp only [updateWavesCover]
    norm_num [List.filterMap_cons, hf2]
  have h3 : updateWavesCover sampleCanvas defaultConfig [coverWaveAtZero] 0 (17 / 2) =
      ([coverMarked (17 / 2)], 17 / 2) := by
    simp only [updateWavesCover]
    norm_num [List.filterMap_cons, hf3]
  have h4 : updateWavesCover sampleCanvas defaultConfig [coverMarked (17 / 2)]
      (17 / 2) (81 / 10) = ([], 83 / 5) := by
    simp only [updateWavesCover]
    norm_num [List.filterMap_cons, hf4]
  have hA : coverRunA = ([coverMarked 9], 83 / 5) := by
    rw [coverRunA, h1]
    exact h2
  have hB : coverRunB = ([], 83 / 5) := by
    rw [coverRunB, h3]
    exact h4
  rw [hA, hB]
  exact ⟨rfl, rfl, rfl⟩

/-- C6: for a sorted colormap with boundary stops at positions 0 and 1,
the interpolator clamps at the ends: any value whose normalized position is
at or below the first stop's position yields the first stop's color, any
value whose normalized position is at or above the last stop's position
yields the last stop's color; in particular value `-1` gives the first
stop's color and value `1` the last stop's color. -/
theorem colormap_boundary_clamp (c0 : ColorStop) (cs : List ColorStop)
    (hsorted : List.Chain' (fun a b => a.pos ≤ b.pos) (c0 :: cs))
    (h0 : c0.pos = 0) (h1 : (cs.getLastD c0).pos = 1) :
    (∀ v : ℝ, (v + 1) / 2 ≤ c0.pos →
      getColorFromColormap v (c0 :: cs) = some c0.color) ∧
    (∀ v : ℝ, (v + 1) / 2 ≥ (cs.getLastD c0).pos →
      getColorFromColormap v (c0 :: cs) = some (cs.getLastD c0).color) ∧
    getColorFromColormap (-1) (c0 :: cs) = some c0.color ∧
    getColorFromColormap 1 (c0 :: cs) = some (cs.getLastD c0).color := by
  have part1 : ∀ v : ℝ, (v + 1) / 2 ≤ c0.pos →
      getColorFromColormap v (c0 :: cs) = some c0.color := by
    intro v hv
    simp only [getColorFromColormap]
    rw [if_pos hv]
  have part2 : ∀ v : ℝ, (v + 1) / 2 ≥ (cs.getLastD c0).pos →
      getColorFromColormap v (c0 :: cs) = some (cs.getLastD c0).color := by
    intro v hv
    have hnot : ¬ (v + 1) / 2 ≤ c0.pos := by
      rw [h0]
      rw [h1] at hv
      linarith
    simp only [getColorFromColormap]
    rw [if_neg hnot, if_pos hv]
  refine ⟨part1, part2, part1 (-1) ?_, part2 1 ?_⟩
  · rw [h0]
    norm_num
  · rw [h1]
    norm_num

/-- Witness for `colormap_boundary_clamp` on the source's default
colormap. -/
theorem colormap_boundary_clamp_witness :
    List.Chain' (fun a b => a.pos ≤ b.pos) defaultColormap ∧
      getColorFromColormap (-1) defaultColormap = some (0, 0, 255) ∧
      getColorFromColormap 1 defaultColormap = some (255, 0, 0) := by
  have hsorted : List.Chain' (fun a b : ColorStop => a.pos ≤ b.pos)
      defaultColormap := by
    simp only [defaultColormap, List.chain'_cons, List.chain'_singleton,
      and_true]
    norm_num
  refine ⟨hsorted, ?_, ?_⟩
  · have h := (colormap_boundary_clamp ⟨0, (0, 0, 255)⟩
      [⟨1 / 4, (128, 0, 128)⟩, ⟨1 / 2, (0, 0, 0)⟩, ⟨3 / 4, (255, 128, 0)⟩,
       ⟨1, (255, 0, 0)⟩] (by simpa [defaultColormap] using hsorted) rfl rfl).2.2.1
    simpa [defaultColormap] using h
  · have h := (colormap_boundary_clamp ⟨0, (0, 0, 255)⟩
      [⟨1 / 4, (128, 0, 128)⟩, ⟨1 / 2, (0, 0, 0)⟩, ⟨3 / 4, (255, 128, 0)⟩,
       ⟨1, (255, 0, 0)⟩] (by simpa [defaultColormap] using hsorted) rfl rfl).2.2.2
    simpa [defaultColormap] using h

/-- C8: for every colormap with at least one stop the interpolator returns
a color (never throws) at every value, and in the degenerate case where the
bracketing pair of adjacent stops has equal positions (the interpolation
fraction would be non-finite) it returns the first stop's color without
interpolating. -/
theorem colormap_total_and_degenerate :
    (∀ (v : ℝ) (c0 : ColorStop) (cs : List ColorStop),
      (getColorFromColormap v (c0 :: cs)).isSome = true) ∧
    (∀ (np : ℝ) (stop1 stop2 : ColorStop) (rest : List ColorStop),
      stop1.pos = stop2.pos → np ≥ stop1.pos → np ≤ stop2.pos →
        interpLoop np (stop1 :: stop2 :: rest) = some stop1.color) := by
  constructor
  · intro v c0 cs
    simp only [getColorFromColormap]
    split
    · rfl
    split
    · rfl
    split <;> rfl
  · intro np stop1 stop2 rest h1 h2 h3
    simp only [interpLoop]
    rw [if_pos ⟨h2, h3⟩, if_pos h1]

/-- Witness for `colormap_total_and_degenerate`: totality on the default
colormap and the degenerate equal-position pair. -/
theorem colormap_total_and_degenerate_witness :
    (getColorFromColormap 0 defaultColormap).isSome = true ∧
      ((⟨1 / 2, ((10 : ℤ), 20, 30)⟩ : ColorStop)).pos =
        ((⟨1 / 2, ((40 : ℤ), 50, 60)⟩ : ColorStop)).pos ∧
      (1 / 2 : ℝ) ≥ ((⟨1 / 2, ((10 : ℤ), 20, 30)⟩ : ColorStop)).pos ∧
      (1 / 2 : ℝ) ≤ ((⟨1 / 2, ((40 : ℤ), 50, 60)⟩ : ColorStop)).pos ∧
      interpLoop (1 / 2)
          [⟨1 / 2, ((10 : ℤ), 20, 30)⟩, ⟨1 / 2, ((40 : ℤ), 50, 60)⟩] =
        some ((⟨1 / 2, ((10 : ℤ), 20, 30)⟩ : ColorStop)).color := by
  refine ⟨?_, rfl, by norm_num, by norm_num, ?_⟩
  · simp only [defaultColormap]
    exact colormap_total_and_degenerate.1 0 _ _
  · exact colormap_total_and_degenerate.2 (1 / 2) _ _ [] rfl (by norm_num)
      (by norm_num)

/-- The interpolation loop passes over any prefix of stops that lie
strictly below the lookup position. -/
theorem interpLoop_skip_prefix (np : ℝ) (a : ColorStop)
    (suffix : List ColorStop) (ha : a.pos < np) :
    ∀ pre : List ColorStop, (∀ s ∈ pre, s.pos < np) →
      interpLoop np (pre ++ a :: suffix) = interpLoop np (a :: suffix) := by
  intro pre
  induction pre with
  | nil => intro _; rfl
  | cons x rest ih =>
    intro hpre
    have hskip : ∀ (y : ColorStop) (l : List ColorStop), y.pos < np →
        interpLoop np (x :: y :: l) = interpLoop np (y :: l) := by
      intro y l hy
      simp only [interpLoop]
      rw [if_neg]
      intro hcontra
      exact absurd hcontra.2 (not_le.mpr hy)
    cases rest with
    | nil => simpa using hskip a suffix ha
    | cons y rest2 =>
      have hy : y.pos < np := hpre y (by simp)
      calc interpLoop np ((x :: y :: rest2) ++ a :: suffix)
          = interpLoop np (x :: y :: (rest2 ++ a :: suffix)) := by simp
        _ = interpLoop np (y :: (rest2 ++ a :: suffix)) :=
            hskip y (rest2 ++ a :: suffix) hy
        _ = interpLoop np ((y :: rest2) ++ a :: suffix) := by simp
        _ = interpLoop np (a :: suffix) :=
            ih (fun s hs => hpre s (List.mem_cons_of_mem x hs))

/-- C7: for adjacent stops at positions `p1 < p2` in a sorted colormap,
evaluating the interpolator at the value whose normalized position is the
midpoint `(p1 + p2) / 2` yields, per channel, the rounded channel-wise
average of the two stops' colors. -/
theorem colormap_midpoint_average (pre : List ColorStop) (a b : ColorStop)
    (rest : List ColorStop) (v : ℝ)
    (hpre : ∀ s ∈ pre, s.pos ≤ a.pos) (hab : a.pos < b.pos)
    (hrest : ∀ s ∈ rest, b.pos ≤ s.pos)
    (hv : (v + 1) / 2 = (a.pos + b.pos) / 2) :
    getColorFromColormap v (pre ++ a :: b :: rest) =
      some (round (((a.color.1 : ℝ) + (b.color.1 : ℝ)) / 2),
            round (((a.color.2.1 : ℝ) + (b.color.2.1 : ℝ)) / 2),
            round (((a.color.2.2 : ℝ) + (b.color.2.2 : ℝ)) / 2)) := by
  have hma : a.pos < (a.pos + b.pos) / 2 := by linarith
  have hmb : (a.pos + b.pos) / 2 < b.pos := by linarith
  have hlb : b.pos ≤ (rest.getLastD b).pos := by
    rcases List.mem_cons.mp (List.getLastD_mem_cons rest b) with h | h
    · rw [h]
    · exact hrest _ h
  have harith : ∀ c1 c2 : ℤ,
      (c1 : ℝ) * (1 - 1 / 2) + (c2 : ℝ) * (1 / 2) = ((c1 : ℝ) + (c2 : ℝ)) / 2 :=
    fun c1 c2 => by ring
  have hloop : interpLoop ((a.pos + b.pos) / 2) (a :: b :: rest) =
      some (round (((a.color.1 : ℝ) + (b.color.1 : ℝ)) / 2),
            round (((a.color.2.1 : ℝ) + (b.color.2.1 : ℝ)) / 2),
            round (((a.color.2.2 : ℝ) + (b.color.2.2 : ℝ)) / 2)) := by
    have ht : ((a.pos + b.pos) / 2 - a.pos) / (b.pos - a.pos) = 1 / 2 := by
      have hne : b.pos - a.pos ≠ 0 := sub_ne_zero.mpr (ne_of_gt hab)
      field_simp
      ring
    simp only [interpLoop]
    rw [if_pos ⟨le_of_lt hma, le_of_lt hmb⟩, if_neg (ne_of_lt hab), ht,
      harith a.color.1 b.color.1, harith a.color.2.1 b.color.2.1,
      harith a.color.2.2 b.color.2.2]
  cases pre with
  | nil =>
    simp only [List.nil_append, getColorFromColormap, List.getLastD_cons]
    rw [hv]
    rw [if_neg (not_le.mpr hma), if_neg (not_le.mpr (lt_of_lt_of_le hmb hlb)),
      hloop]
  | cons x pre2 =>
    have hax : x.pos ≤ a.pos := hpre x (List.mem_cons_self x pre2)
    have hlast : (pre2 ++ a :: b :: rest).getLastD x = rest.getLastD b := by
      rw [List.getLastD_eq_getLast?, List.getLast?_append_cons,
        ← List.getLastD_eq_getLast?, List.getLastD_cons, List.getLastD_cons]
    have hskip : interpLoop ((a.pos + b.pos) / 2)
        ((x :: pre2) ++ a :: b :: rest) =
        interpLoop ((a.pos + b.pos) / 2) (a :: b :: rest) :=
      interpLoop_skip_prefix ((a.pos + b.pos) / 2) a (b :: rest) hma
        (x :: pre2)
        (fun s hs => lt_of_le_of_lt (hpre s hs) hma)
    simp only [List.cons_append, getColorFromColormap]
    rw [hv, hlast]
    rw [if_neg (not_le.mpr (lt_of_le_of_lt hax hma)),
      if_neg (not_le.mpr (lt_of_lt_of_le hmb hlb))]
    rw [show x :: (pre2 ++ a :: b :: rest) = (x :: pre2) ++ a :: b :: rest
      from rfl, hskip, hloop]

/-- Witness for `colormap_midpoint_average` on the default colormap's
adjacent pair at positions 0.25 and 0.5: the midpoint normalized position
0.375 corresponds to value `-0.25` and yields the rounded average of
(128, 0, 128) and (0, 0, 0). -/
theorem colormap_midpoint_average_witness :
    getColorFromColormap (-(1 / 4)) defaultColormap = some (64, 0, 64) := by
  have h := colormap_midpoint_average [⟨0, (0, 0, 255)⟩]
    ⟨1 / 4, (128, 0, 128)⟩ ⟨1 / 2, (0, 0, 0)⟩
    [⟨3 / 4, (255, 128, 0)⟩, ⟨1, (255, 0, 0)⟩] (-(1 / 4))
    (by intro s hs; simp at hs; rw [hs]; norm_num)
    (by norm_num)
    (by intro s hs; simp at hs; rcases hs with h | h <;> rw [h] <;> norm_num)
    (by norm_num)
  have h64 : round ((128 : ℝ) / 2) = (64 : ℤ) := by
    norm_num [round_eq]
  simpa [defaultColormap, h64] using h

end WaveSim
